import Mathlib

/-!
Shallow embedding of the Risk Engine of `Portfolio_Risk_Analysis.py`
(class `PortfolioRiskAnalysis`).

The numeric core works on exact rationals (`ℚ`) where the Python code does
rational-valued arithmetic on floats (percentile interpolation, means, dot
products), and on reals (`ℝ`) where it applies transcendental functions
(`np.log` for returns, `sqrt` inside the standard deviation).  Python
exceptions are modelled with `Except`; the NaN produced by pandas when the
mean of an empty selection is taken is modelled as `Option.none`.
-/

/-- Error taxonomy of the specification (§7).  `invalidParameter` models the
`ValueError` numpy raises for a percentile rank outside `[0, 100]`;
`emptySeries` models the error numpy raises when the percentile of an empty
array is requested; `dimensionMismatch` models the numpy broadcast error for
incompatible 1-D shapes.  `emptyTail` is listed in the specification's
taxonomy; the source never raises it. -/
inductive RiskError where
  | invalidParameter
  | emptySeries
  | emptyTail
  | dimensionMismatch
  deriving DecidableEq, Repr

instance {ε α : Type} [DecidableEq ε] [DecidableEq α] :
    DecidableEq (Except ε α) := fun a b =>
  match a, b with
  | .error e, .error f =>
    match decEq e f with
    | isTrue h => isTrue (by rw [h])
    | isFalse h => isFalse (fun hh => h (by cases hh; rfl))
  | .error _, .ok _ => isFalse (fun hh => by cases hh)
  | .ok _, .error _ => isFalse (fun hh => by cases hh)
  | .ok x, .ok y =>
    match decEq x y with
    | isTrue h => isTrue (by rw [h])
    | isFalse h => isFalse (fun hh => h (by cases hh; rfl))

/-- Ceiling of a rational, as used for the upper interpolation index of
`np.percentile`: equal to the floor on integral inputs, floor plus one
otherwise.  On non-negative inputs this is exactly `Nat.ceil`
(`ceilIndex_eq_ceil`). -/
def ceilIndex (h : ℚ) : ℕ :=
  if ((Nat.floor h : ℕ) : ℚ) = h then Nat.floor h else Nat.floor h + 1

/-- Linear interpolation used by `np.percentile` (default method "linear"):
at fractional position `h`, interpolate between the entries at `⌊h⌋` and
`⌈h⌉` of the sorted data. -/
def lerpAt (sorted : List ℚ) (h : ℚ) : ℚ :=
  sorted.getD (Nat.floor h) 0 +
    (h - (Nat.floor h : ℚ)) *
      (sorted.getD (ceilIndex h) 0 - sorted.getD (Nat.floor h) 0)

/-- `np.percentile(xs, q)` with the default linear interpolation: sort the
data ascending and interpolate at virtual index `(n - 1) * q / 100`. -/
def percentile (xs : List ℚ) (q : ℚ) : ℚ :=
  lerpAt (List.insertionSort (· ≤ ·) xs) (((xs.length : ℚ) - 1) * q / 100)

/-- `PortfolioRiskAnalysis.var_hist`: `np.percentile(series, (1 - c) * 100)`.
numpy rejects a percentile rank outside `[0, 100]` and an empty data array;
otherwise the interpolated percentile is returned. -/
def var_hist (series : List ℚ) (c : ℚ) : Except RiskError ℚ :=
  if (1 - c) * 100 < 0 ∨ 100 < (1 - c) * 100 then .error .invalidParameter
  else if series.isEmpty then .error .emptySeries
  else .ok (percentile series ((1 - c) * 100))

/-- pandas `Series.mean()`: NaN (modelled as `none`) on an empty series,
otherwise the arithmetic mean. -/
def pandasMean (xs : List ℚ) : Option ℚ :=
  if xs.isEmpty then none else some (xs.sum / (xs.length : ℚ))

/-- `PortfolioRiskAnalysis.cvar`: mean of the observations that are `≤` the
historical VaR cutoff.  The source has no empty-tail guard: an empty
selection would produce NaN (`none`), not an error. -/
def cvar (series : List ℚ) (c : ℚ) : Except RiskError (Option ℚ) :=
  match var_hist series c with
  | .error e => .error e
  | .ok cut => .ok (pandasMean (series.filter (fun x => decide (x ≤ cut))))

/-- Pairwise dot product of two equal-length vectors. -/
def dotProduct (w s : List ℚ) : ℚ :=
  ((w.zip s).map (fun p => p.1 * p.2)).sum

/-- `PortfolioRiskAnalysis.stress_testing`: `np.sum(weights * scenario)`.
numpy elementwise multiplication of 1-D arrays follows broadcasting rules:
equal lengths multiply pairwise; a length-1 operand is stretched across the
other; any other length mismatch raises a broadcast error. -/
def stress_testing (weights scenario : List ℚ) : Except RiskError ℚ :=
  if weights.length = scenario.length then
    .ok (dotProduct weights scenario)
  else if weights.length = 1 then
    .ok ((scenario.map (fun s => weights.headD 0 * s)).sum)
  else if scenario.length = 1 then
    .ok ((weights.map (fun w => w * scenario.headD 0)).sum)
  else .error .dimensionMismatch

/-- The specification's description of the historical VaR percentile
(§4.3): the conventional linear-interpolation percentile, written as the
convex combination `(1 - g) * lower + g * upper` at fractional position
`q / 100 * (n - 1)` of the ascending-sorted data. -/
def percentile_spec (xs : List ℚ) (q : ℚ) : ℚ :=
  (1 - (q / 100 * ((xs.length : ℚ) - 1) -
      (Nat.floor (q / 100 * ((xs.length : ℚ) - 1)) : ℚ))) *
    (List.insertionSort (· ≤ ·) xs).getD
      (Nat.floor (q / 100 * ((xs.length : ℚ) - 1))) 0 +
  (q / 100 * ((xs.length : ℚ) - 1) -
      (Nat.floor (q / 100 * ((xs.length : ℚ) - 1)) : ℚ)) *
    (List.insertionSort (· ≤ ·) xs).getD
      (ceilIndex (q / 100 * ((xs.length : ℚ) - 1))) 0

/-- Log-returns of one price series: `np.log(data / data.shift(1))` followed
by `dropna()`, which removes the first row (the only NaN row for an aligned
all-numeric frame).  Entry `t` of the result is `ln(price[t+1] / price[t])`. -/
noncomputable def logReturns : List ℝ → List ℝ
  | p0 :: p1 :: rest => Real.log (p1 / p0) :: logReturns (p1 :: rest)
  | _ => []

/-- `PortfolioRiskAnalysis.calculate_returns`: the aligned price matrix is a
list of per-asset price series; log-returns are taken column by column. -/
noncomputable def calculate_returns (data : List (List ℝ)) : List (List ℝ) :=
  data.map logReturns

/-- Arithmetic mean, as `pandas.Series.mean()` computes it on a non-empty
series. -/
noncomputable def seriesMean (xs : List ℝ) : ℝ := xs.sum / (xs.length : ℝ)

/-- `pandas.Series.std(ddof)`: square root of the sum of squared deviations
from the mean divided by `n - ddof`.  The pandas default is `ddof = 1` (the
sample standard deviation). -/
noncomputable def seriesStd (ddof : ℕ) (xs : List ℝ) : ℝ :=
  Real.sqrt ((xs.map (fun x => (x - seriesMean xs) ^ 2)).sum /
    ((xs.length : ℝ) - (ddof : ℝ)))

/-- `PortfolioRiskAnalysis.var_para`:
`mean - std * norm.ppf(confidence_level)`, with the standard deviation taken
by the pandas default `ddof = 1`.  The standard normal quantile function
`norm.ppf` is an external library routine; it is passed in as a parameter
`ppf`. -/
noncomputable def var_para (ppf : ℝ → ℝ) (series : List ℝ) (c : ℝ) : ℝ :=
  seriesMean series - seriesStd 1 series * ppf c

/-- The specification's formula for parametric VaR (§4.3):
`mean(series) - std(series) * Φ⁻¹(c)` with the sample standard deviation
(`ddof = 1`: squared deviations divided by `n - 1`), `Φ⁻¹` abstracted as
`ppf`. -/
noncomputable def var_parametric_spec (ppf : ℝ → ℝ) (series : List ℝ) (c : ℝ) : ℝ :=
  seriesMean series -
    Real.sqrt ((series.map (fun x => (x - seriesMean series) ^ 2)).sum /
      ((series.length : ℝ) - 1)) * ppf c

lemma getD_eq_get' (l : List ℚ) {i : ℕ} (h : i < l.length) :
    l.getD i 0 = l.get ⟨i, h⟩ := by
  simp [List.getD_eq_getElem?_getD, List.getElem?_eq_getElem h]

lemma sorted_getD_mono (xs : List ℚ) {i j : ℕ} (hij : i ≤ j) (hj : j < xs.length) :
    (List.insertionSort (· ≤ ·) xs).getD i 0 ≤
      (List.insertionSort (· ≤ ·) xs).getD j 0 := by
  have hj' : j < (List.insertionSort (· ≤ ·) xs).length := by
    rw [List.length_insertionSort]; exact hj
  have hi' : i < (List.insertionSort (· ≤ ·) xs).length := lt_of_le_of_lt hij hj'
  rw [getD_eq_get' _ hi', getD_eq_get' _ hj']
  exact List.Sorted.rel_get_of_le (List.sorted_insertionSort _ xs)
    (Fin.mk_le_mk.mpr hij)

lemma sorted_getD_mem (xs : List ℚ) {i : ℕ} (h : i < xs.length) :
    (List.insertionSort (· ≤ ·) xs).getD i 0 ∈ xs := by
  have h' : i < (List.insertionSort (· ≤ ·) xs).length := by
    rw [List.length_insertionSort]; exact h
  rw [getD_eq_get' _ h']
  exact (List.mem_insertionSort _).mp (List.get_mem _ _ _)

lemma sorted_getD_zero_le (xs : List ℚ) {y : ℚ} (hy : y ∈ xs) :
    (List.insertionSort (· ≤ ·) xs).getD 0 0 ≤ y := by
  have hy' : y ∈ List.insertionSort (· ≤ ·) xs := (List.mem_insertionSort _).mpr hy
  obtain ⟨j, hj, rfl⟩ := List.mem_iff_getElem.mp hy'
  have hjx : j < xs.length := by rw [← List.length_insertionSort (· ≤ ·) xs]; exact hj
  have := sorted_getD_mono xs (Nat.zero_le j) hjx
  rwa [getD_eq_get' _ hj] at this

lemma le_lerpAt (xs : List ℚ) (h : ℚ) (hne : xs ≠ []) (h0 : 0 ≤ h)
    (hle : h ≤ (xs.length : ℚ) - 1) :
    (List.insertionSort (· ≤ ·) xs).getD 0 0 ≤
      lerpAt (List.insertionSort (· ≤ ·) xs) h := by
  have hn : 1 ≤ xs.length := List.length_pos.mpr hne
  have hcast : ((xs.length - 1 : ℕ) : ℚ) = (xs.length : ℚ) - 1 := by
    rw [Nat.cast_sub hn, Nat.cast_one]
  have hfloor_le : Nat.floor h ≤ xs.length - 1 := by
    calc Nat.floor h ≤ Nat.floor ((xs.length - 1 : ℕ) : ℚ) :=
          Nat.floor_le_floor (by rw [hcast]; exact hle)
      _ = xs.length - 1 := Nat.floor_natCast _
  have hfloor_lt : Nat.floor h < xs.length := lt_of_le_of_lt hfloor_le (by omega)
  have hceil_le : ceilIndex h ≤ xs.length - 1 := by
    rw [ceilIndex]
    split_ifs with hint
    · exact hfloor_le
    · have hne2 : h ≠ (xs.length : ℚ) - 1 := by
        intro heq
        apply hint
        rw [heq, ← hcast, Nat.floor_natCast]
      have hlt : h < (xs.length : ℚ) - 1 := lt_of_le_of_ne hle hne2
      have hfl : (Nat.floor h : ℚ) ≤ h := Nat.floor_le h0
      have hcl : (Nat.floor h : ℚ) < ((xs.length - 1 : ℕ) : ℚ) := by
        rw [hcast]; linarith
      have : Nat.floor h < xs.length - 1 := by exact_mod_cast hcl
      omega
  have hceil_lt : ceilIndex h < xs.length := lt_of_le_of_lt hceil_le (by omega)
  have hfc : Nat.floor h ≤ ceilIndex h := by
    rw [ceilIndex]; split_ifs
    · exact le_refl _
    · exact Nat.le_succ _
  have hlohi := sorted_getD_mono xs hfc hceil_lt
  have hg : (0:ℚ) ≤ h - (Nat.floor h : ℚ) := sub_nonneg.mpr (Nat.floor_le h0)
  have hzlo := sorted_getD_mono xs (Nat.zero_le (Nat.floor h)) hfloor_lt
  calc (List.insertionSort (· ≤ ·) xs).getD 0 0
      ≤ (List.insertionSort (· ≤ ·) xs).getD (Nat.floor h) 0 := hzlo
    _ ≤ lerpAt (List.insertionSort (· ≤ ·) xs) h := by
        rw [lerpAt]
        exact le_add_of_nonneg_right (mul_nonneg hg (sub_nonneg.mpr hlohi))

lemma percentile_bounds (xs : List ℚ) (q : ℚ) (hne : xs ≠ []) (h0 : 0 ≤ q)
    (h1 : q ≤ 100) :
    0 ≤ ((xs.length : ℚ) - 1) * q / 100 ∧
      ((xs.length : ℚ) - 1) * q / 100 ≤ (xs.length : ℚ) - 1 := by
  have hn : 1 ≤ xs.length := List.length_pos.mpr hne
  have hn' : (1:ℚ) ≤ (xs.length : ℚ) := by exact_mod_cast hn
  constructor
  · apply div_nonneg _ (by norm_num)
    exact mul_nonneg (by linarith) h0
  · calc ((xs.length : ℚ) - 1) * q / 100
        = ((xs.length : ℚ) - 1) * (q / 100) := by ring
      _ ≤ ((xs.length : ℚ) - 1) * 1 :=
          mul_le_mul_of_nonneg_left (by linarith) (by linarith)
      _ = (xs.length : ℚ) - 1 := mul_one _

lemma le_percentile (xs : List ℚ) (q : ℚ) (hne : xs ≠ []) (h0 : 0 ≤ q)
    (h1 : q ≤ 100) :
    (List.insertionSort (· ≤ ·) xs).getD 0 0 ≤ percentile xs q := by
  obtain ⟨hb0, hb1⟩ := percentile_bounds xs q hne h0 h1
  rw [percentile]
  exact le_lerpAt xs _ hne hb0 hb1

lemma exists_min_le_percentile (xs : List ℚ) (q : ℚ) (hne : xs ≠ [])
    (h0 : 0 ≤ q) (h1 : q ≤ 100) :
    ∃ x ∈ xs, x ≤ percentile xs q ∧ ∀ y ∈ xs, x ≤ y :=
  ⟨(List.insertionSort (· ≤ ·) xs).getD 0 0,
    sorted_getD_mem xs (List.length_pos.mpr hne),
    le_percentile xs q hne h0 h1,
    fun _ hy => sorted_getD_zero_le xs hy⟩

lemma mean_le_of_le {xs : List ℚ} {cut : ℚ} (hne : xs ≠ [])
    (hb : ∀ x ∈ xs, x ≤ cut) : xs.sum / (xs.length : ℚ) ≤ cut := by
  have hlen : (0:ℚ) < (xs.length : ℚ) := by
    exact_mod_cast List.length_pos.mpr hne
  rw [div_le_iff₀ hlen]
  calc xs.sum ≤ xs.length • cut := List.sum_le_card_nsmul xs cut hb
    _ = cut * (xs.length : ℚ) := by rw [nsmul_eq_mul]; ring

lemma q_range {c : ℚ} (h0 : 0 < c) (h1 : c < 1) :
    0 ≤ (1 - c) * 100 ∧ (1 - c) * 100 ≤ 100 := by
  constructor <;> nlinarith

lemma var_hist_eq_ok {series : List ℚ} {c : ℚ} (hne : series ≠ [])
    (h0 : 0 ≤ (1 - c) * 100) (h1 : (1 - c) * 100 ≤ 100) :
    var_hist series c = .ok (percentile series ((1 - c) * 100)) := by
  rw [var_hist, if_neg (by push_neg; constructor <;> linarith),
    if_neg (by simp [hne])]

lemma tail_ne_nil {series : List ℚ} {c : ℚ} (hne : series ≠ [])
    (h0 : 0 ≤ (1 - c) * 100) (h1 : (1 - c) * 100 ≤ 100) :
    series.filter
      (fun x => decide (x ≤ percentile series ((1 - c) * 100))) ≠ [] := by
  obtain ⟨x, hx, hxle, _⟩ := exists_min_le_percentile series _ hne h0 h1
  exact List.ne_nil_of_mem (List.mem_filter.mpr ⟨hx, by simpa using hxle⟩)

lemma stress_eq_dot {w s : List ℚ} (h : w.length = s.length) :
    stress_testing w s = Except.ok (dotProduct w s) := by
  simp [stress_testing, h]

lemma dot_cons (a b : ℚ) (w s : List ℚ) :
    dotProduct (a :: w) (b :: s) = a * b + dotProduct w s := by
  simp [dotProduct]

lemma dotProduct_linear (w : List ℚ) :
    ∀ (s1 s2 : List ℚ) (a b : ℚ), s1.length = w.length → s2.length = w.length →
      dotProduct w (List.zipWith (fun x y => a * x + b * y) s1 s2) =
        a * dotProduct w s1 + b * dotProduct w s2 := by
  induction w with
  | nil =>
    intro s1 s2 a b h1 h2
    rw [List.length_nil, List.length_eq_zero] at h1 h2
    subst h1; subst h2
    simp [dotProduct]
  | cons w0 w ih =>
    intro s1 s2 a b h1 h2
    cases s1 with
    | nil => simp at h1
    | cons x s1 =>
      cases s2 with
      | nil => simp at h2
      | cons y s2 =>
        rw [List.zipWith_cons_cons, dot_cons, dot_cons, dot_cons,
          ih s1 s2 a b (by simpa using h1) (by simpa using h2)]
        ring

lemma var_hist_error_cases {series : List ℚ} {c : ℚ} {e : RiskError}
    (h : var_hist series c = .error e) :
    e = .invalidParameter ∨ e = .emptySeries := by
  rw [var_hist] at h
  split_ifs at h
  all_goals first
    | (left; cases h; rfl)
    | (right; cases h; rfl)

lemma logReturns_length : ∀ s : List ℝ, (logReturns s).length = s.length - 1
  | [] => rfl
  | [_] => rfl
  | p0 :: p1 :: rest => by
    have ih := logReturns_length (p1 :: rest)
    simp only [logReturns, List.length_cons] at *
    omega

lemma logReturns_getD : ∀ (s : List ℝ) (t : ℕ), t + 1 < s.length →
    (logReturns s).getD t 0 = Real.log (s.getD (t + 1) 0 / s.getD t 0)
  | _ :: _ :: _, 0, _ => by simp [logReturns]
  | p0 :: p1 :: rest, t + 1, h => by
    have ih := logReturns_getD (p1 :: rest) t (by simp at h ⊢; omega)
    simpa [logReturns] using ih

lemma calculate_returns_getD (data : List (List ℝ)) {i : ℕ}
    (h : i < data.length) :
    (calculate_returns data).getD i [] = logReturns (data.getD i []) := by
  rw [calculate_returns]
  simp [List.getD_eq_getElem?_getD, List.getElem?_map, List.getElem?_eq_getElem h]

/-- C1: for an aligned price matrix with at least two strictly positive
observations per asset, `calculate_returns` yields one return series per
asset, each one entry shorter than its price series, with entry `t` equal to
the natural log of `price[t+1] / price[t]` (the log of the price at a date
divided by the previous date's price). -/
theorem calculate_returns_spec (data : List (List ℝ))
    (_hobs : ∀ s ∈ data, 2 ≤ s.length)
    (_hpos : ∀ s ∈ data, ∀ p ∈ s, 0 < p) :
    (calculate_returns data).length = data.length ∧
    ∀ i, i < data.length →
      ((calculate_returns data).getD i []).length = (data.getD i []).length - 1 ∧
      ∀ t, t + 1 < (data.getD i []).length →
        ((calculate_returns data).getD i []).getD t 0 =
          Real.log ((data.getD i []).getD (t + 1) 0 / (data.getD i []).getD t 0) := by
  refine ⟨by simp [calculate_returns], fun i hi => ?_⟩
  rw [calculate_returns_getD data hi]
  exact ⟨logReturns_length _, fun t ht => logReturns_getD _ t ht⟩

/-- Witness for C1 at the concrete price matrix `[[1, 2, 4]]`. -/
theorem calculate_returns_spec_witness :
    (calculate_returns [[(1:ℝ), 2, 4]]).length = ([[(1:ℝ), 2, 4]] : List (List ℝ)).length ∧
    ∀ i, i < ([[(1:ℝ), 2, 4]] : List (List ℝ)).length →
      ((calculate_returns [[(1:ℝ), 2, 4]]).getD i []).length =
        (([[(1:ℝ), 2, 4]] : List (List ℝ)).getD i []).length - 1 ∧
      ∀ t, t + 1 < (([[(1:ℝ), 2, 4]] : List (List ℝ)).getD i []).length →
        ((calculate_returns [[(1:ℝ), 2, 4]]).getD i []).getD t 0 =
          Real.log ((([[(1:ℝ), 2, 4]] : List (List ℝ)).getD i []).getD (t + 1) 0 /
            (([[(1:ℝ), 2, 4]] : List (List ℝ)).getD i []).getD t 0) :=
  calculate_returns_spec [[(1:ℝ), 2, 4]]
    (by intro s hs; simp at hs; subst hs; simp)
    (by
      intro s hs p hp
      simp at hs
      subst hs
      simp at hp
      rcases hp with h | h | h <;> rw [h] <;> norm_num)

lemma percentile_eq_spec (xs : List ℚ) (q : ℚ) :
    percentile xs q = percentile_spec xs q := by
  have hq : q / 100 * ((xs.length : ℚ) - 1) = ((xs.length : ℚ) - 1) * q / 100 := by
    ring
  simp only [percentile, percentile_spec, lerpAt, hq]
  ring

/-- C2: for a non-empty series and confidence level in (0, 1), `var_hist`
returns the conventional linear-interpolation percentile of the series at
rank `(1 - c) * 100`. -/
theorem var_hist_percentile_spec (series : List ℚ) (c : ℚ) (hne : series ≠ [])
    (h0 : 0 < c) (h1 : c < 1) :
    var_hist series c = Except.ok (percentile_spec series ((1 - c) * 100)) := by
  obtain ⟨hq0, hq1⟩ := q_range h0 h1
  rw [var_hist_eq_ok hne hq0 hq1, percentile_eq_spec]

/-- Witness for C2 at series `[1, 2, 3, 4]` and confidence level `0.95`. -/
theorem var_hist_percentile_spec_witness :
    var_hist [1, 2, 3, 4] (19/20) =
      Except.ok (percentile_spec [1, 2, 3, 4] ((1 - 19/20) * 100)) :=
  var_hist_percentile_spec [1, 2, 3, 4] (19/20) (by simp) (by norm_num) (by norm_num)

/-- C3: `var_para` computes `mean(series) - std(series) * ppf(c)` where
`std` is the sample standard deviation with `ddof = 1` (the pandas
`Series.std` default) and `ppf` stands for the standard normal quantile
function `norm.ppf` supplied by the statistics library. -/
theorem var_para_formula (ppf : ℝ → ℝ) (series : List ℝ) (c : ℝ)
    (_hne : series ≠ []) (_h0 : 0 < c) (_h1 : c < 1) :
    var_para ppf series c = var_parametric_spec ppf series c := by
  simp [var_para, var_parametric_spec, seriesStd]

/-- Witness for C3 at series `[1, 2]`, confidence level `1/2`, and the
identity in place of the quantile function. -/
theorem var_para_formula_witness :
    var_para (fun x => x) [(1:ℝ), 2] (1/2) =
      var_parametric_spec (fun x => x) [(1:ℝ), 2] (1/2) :=
  var_para_formula (fun x => x) [(1:ℝ), 2] (1/2) (by simp) (by norm_num) (by norm_num)

/-- C4: whenever `var_hist` returns a cutoff and the inclusive tail
selection is non-empty, `cvar` returns the arithmetic mean of exactly the
observations that are `≤` the cutoff. -/
theorem cvar_tail_mean (series : List ℚ) (c : ℚ) (cut : ℚ)
    (hcut : var_hist series c = Except.ok cut)
    (hne : series.filter (fun x => decide (x ≤ cut)) ≠ []) :
    cvar series c = Except.ok (some
      ((series.filter (fun x => decide (x ≤ cut))).sum /
        ((series.filter (fun x => decide (x ≤ cut))).length : ℚ))) := by
  simp only [cvar, hcut, pandasMean]
  rw [if_neg (by simpa [List.isEmpty_iff] using hne)]

/-- Witness for C4 at series `[1, 2, 3, 4]` and confidence level `0.95`
(cutoff `23/20`). -/
theorem cvar_tail_mean_witness :
    cvar [1, 2, 3, 4] (19/20) = Except.ok (some
      ((([1, 2, 3, 4] : List ℚ).filter (fun x => decide (x ≤ (23/20 : ℚ)))).sum /
        ((([1, 2, 3, 4] : List ℚ).filter (fun x => decide (x ≤ (23/20 : ℚ)))).length : ℚ))) := by
  have h1 : Nat.floor ((3:ℚ)/20) = 0 := by norm_num
  have hcut : var_hist [1, 2, 3, 4] (19/20) = Except.ok (23/20) := by
    norm_num [var_hist, percentile, lerpAt, ceilIndex, List.insertionSort,
      List.orderedInsert, h1]
  exact cvar_tail_mean [1, 2, 3, 4] (19/20) (23/20) hcut
    (by norm_num [List.filter])

/-- C5: for a non-empty, non-constant series and confidence level in (0, 1),
the conditional VaR is at most the historical VaR cutoff. -/
theorem cvar_le_var_hist (series : List ℚ) (c : ℚ) (hne : series ≠ [])
    (_hnondeg : ∃ x ∈ series, ∃ y ∈ series, x ≠ y) (h0 : 0 < c) (h1 : c < 1) :
    ∃ cut m, var_hist series c = Except.ok cut ∧
      cvar series c = Except.ok (some m) ∧ m ≤ cut := by
  obtain ⟨hq0, hq1⟩ := q_range h0 h1
  have hv := var_hist_eq_ok hne hq0 hq1
  have htail := tail_ne_nil hne hq0 hq1
  refine ⟨percentile series ((1 - c) * 100),
    (series.filter (fun x => decide (x ≤ percentile series ((1 - c) * 100)))).sum /
      ((series.filter
        (fun x => decide (x ≤ percentile series ((1 - c) * 100)))).length : ℚ),
    hv, ?_, ?_⟩
  · simp only [cvar, hv, pandasMean]
    rw [if_neg (by simpa [List.isEmpty_iff] using htail)]
  · apply mean_le_of_le htail
    intro x hx
    have := (List.mem_filter.mp hx).2
    simpa using this

/-- Witness for C5 at series `[1, 2, 3, 4]` and confidence level `0.95`. -/
theorem cvar_le_var_hist_witness :
    ∃ cut m, var_hist [1, 2, 3, 4] (19/20) = Except.ok cut ∧
      cvar [1, 2, 3, 4] (19/20) = Except.ok (some m) ∧ m ≤ cut :=
  cvar_le_var_hist [1, 2, 3, 4] (19/20) (by simp)
    ⟨1, by simp, 2, by simp, by norm_num⟩ (by norm_num) (by norm_num)

/-- C6 counterexample: on the empty series (which has no observation at all,
hence none `≤` any cutoff) `cvar` fails with the empty-series error coming
from the percentile step, not with an empty-tail error. -/
theorem cvar_empty_tail_counterexample :
    cvar ([] : List ℚ) (19/20) = Except.error RiskError.emptySeries ∧
    cvar ([] : List ℚ) (19/20) ≠ Except.error RiskError.emptyTail := by
  have h : cvar ([] : List ℚ) (19/20) = Except.error RiskError.emptySeries := by
    norm_num [cvar, var_hist]
  refine ⟨h, ?_⟩
  rw [h]
  intro hh
  simp at hh

/-- C6 amended: `cvar` never fails with an empty-tail error — no such guard
exists in the code.  Its only failures are the ones propagated from the
percentile step, and an empty tail selection would yield NaN, not an error. -/
theorem cvar_never_empty_tail (series : List ℚ) (c : ℚ) :
    cvar series c ≠ Except.error RiskError.emptyTail := by
  intro h
  unfold cvar at h
  rcases hv : var_hist series c with e | cut
  · rw [hv] at h
    rcases var_hist_error_cases hv with h' | h' <;> subst h' <;> simp at h
  · rw [hv] at h
    simp at h

/-- Witness for C6's amended theorem at series `[1, 2]`, confidence `1/2`. -/
theorem cvar_never_empty_tail_witness :
    cvar [1, 2] (1/2) ≠ Except.error RiskError.emptyTail :=
  cvar_never_empty_tail [1, 2] (1/2)

/-- C7 counterexample: `confidence_level = 1` lies outside the open interval
(0, 1), yet `var_hist` succeeds (percentile rank 0 is valid for numpy) and
returns the minimum instead of failing. -/
theorem var_hist_boundary_counterexample :
    var_hist [1, 2, 3] 1 = Except.ok 1 ∧ ¬ ((0:ℚ) < 1 ∧ (1:ℚ) < 1) := by
  constructor
  · norm_num [var_hist, percentile, lerpAt, ceilIndex, List.insertionSort,
      List.orderedInsert]
  · intro hh
    exact lt_irrefl 1 hh.2

/-- C7 amended: `var_hist` fails with the invalid-parameter error exactly
for confidence levels whose percentile rank `(1 - c) * 100` falls outside
numpy's accepted range `[0, 100]`, i.e. for `c < 0` or `c > 1`; the boundary
values `c = 0` and `c = 1` are accepted. -/
theorem var_hist_out_of_range (series : List ℚ) (c : ℚ) (h : c < 0 ∨ 1 < c) :
    var_hist series c = Except.error RiskError.invalidParameter := by
  rw [var_hist, if_pos]
  rcases h with h | h
  · right; nlinarith
  · left; nlinarith

/-- Witness for C7's amended theorem: the specification's own example
`confidence_level = 1.5` does fail. -/
theorem var_hist_out_of_range_witness :
    var_hist [1, 2, 3] (3/2) = Except.error RiskError.invalidParameter :=
  var_hist_out_of_range [1, 2, 3] (3/2) (Or.inr (by norm_num))

/-- C8 counterexample: a weights vector of length 2 against a stress
scenario of length 1 — the lengths differ, yet numpy broadcasting makes
`stress_testing` return a value instead of failing. -/
theorem stress_testing_broadcast_counterexample :
    stress_testing [1/2, 1/2] [-1/25] = Except.ok (-1/25) ∧
    ([(1:ℚ)/2, 1/2] : List ℚ).length ≠ ([(-1:ℚ)/25] : List ℚ).length := by
  constructor
  · norm_num [stress_testing]
  · simp

/-- C8 amended: with equal lengths `stress_testing` returns the dot product
`Σ weight[a] * scenario[a]`; with differing lengths it fails with the
dimension-mismatch (broadcast) error unless one operand has length 1, in
which case numpy broadcasting stretches the single value across the other
operand. -/
theorem stress_testing_amended (w s : List ℚ) :
    (w.length = s.length → stress_testing w s = Except.ok (dotProduct w s)) ∧
    (w.length ≠ s.length → w.length ≠ 1 → s.length ≠ 1 →
      stress_testing w s = Except.error RiskError.dimensionMismatch) ∧
    (w.length ≠ s.length → s.length = 1 →
      stress_testing w s = Except.ok ((w.map (fun x => x * s.headD 0)).sum)) ∧
    (w.length ≠ s.length → w.length = 1 →
      stress_testing w s = Except.ok ((s.map (fun x => w.headD 0 * x)).sum)) := by
  refine ⟨fun h => stress_eq_dot h, fun h h1 h2 => ?_, fun h h2 => ?_,
    fun h h1 => ?_⟩
  · rw [stress_testing, if_neg h, if_neg h1, if_neg h2]
  · have hw1 : w.length ≠ 1 := fun hw => h (by rw [hw, h2])
    rw [stress_testing, if_neg h, if_neg hw1, if_pos h2]
  · rw [stress_testing, if_neg h, if_pos h1]

/-- Witness for C8's amended theorem: equal lengths give the dot product;
lengths 2 and 3 (neither 1) fail. -/
theorem stress_testing_amended_witness :
    stress_testing [1/2, 1/2] [-1/20, -3/100] =
      Except.ok (dotProduct [1/2, 1/2] [-1/20, -3/100]) ∧
    stress_testing [1/2, 1/2] [1, 2, 3] =
      Except.error RiskError.dimensionMismatch :=
  ⟨(stress_testing_amended [1/2, 1/2] [-1/20, -3/100]).1 (by simp),
   (stress_testing_amended [1/2, 1/2] [1, 2, 3]).2.1 (by simp) (by simp) (by simp)⟩

/-- C9: the stress test is linear in the scenario: applied to
`a * scenario1 + b * scenario2` (pointwise) it returns
`a * impact(scenario1) + b * impact(scenario2)`. -/
theorem stress_testing_linear (w s1 s2 : List ℚ) (a b : ℚ)
    (h1 : s1.length = w.length) (h2 : s2.length = w.length) :
    stress_testing w (List.zipWith (fun x y => a * x + b * y) s1 s2) =
      Except.ok (a * dotProduct w s1 + b * dotProduct w s2) ∧
    stress_testing w s1 = Except.ok (dotProduct w s1) ∧
    stress_testing w s2 = Except.ok (dotProduct w s2) := by
  have hlen : w.length = (List.zipWith (fun x y => a * x + b * y) s1 s2).length := by
    rw [List.length_zipWith, h1, h2, min_self]
  refine ⟨?_, stress_eq_dot h1.symm, stress_eq_dot h2.symm⟩
  rw [stress_eq_dot hlen, dotProduct_linear w s1 s2 a b h1 h2]

/-- Witness for C9 at weights `[1/2, 1/2]`, scenarios `[-1/20, -3/100]` and
`[1/100, 1/50]`, scalars `a = 2`, `b = 3`. -/
theorem stress_testing_linear_witness :
    stress_testing [1/2, 1/2]
        (List.zipWith (fun x y => (2:ℚ) * x + 3 * y) [-1/20, -3/100] [1/100, 1/50]) =
      Except.ok (2 * dotProduct [1/2, 1/2] [-1/20, -3/100] +
        3 * dotProduct [1/2, 1/2] [1/100, 1/50]) ∧
    stress_testing [1/2, 1/2] [-1/20, -3/100] =
      Except.ok (dotProduct [1/2, 1/2] [-1/20, -3/100]) ∧
    stress_testing [1/2, 1/2] [1/100, 1/50] =
      Except.ok (dotProduct [1/2, 1/2] [1/100, 1/50]) :=
  stress_testing_linear [1/2, 1/2] [-1/20, -3/100] [1/100, 1/50] 2 3
    (by simp) (by simp)

/-- C10: for a non-empty series and confidence level in (0, 1), the
historical VaR cutoff is at least the minimum observation, so the inclusive
tail selection of `cvar` contains at least that minimum; the empty-tail case
is unreachable and `cvar` returns a well-defined mean. -/
theorem cvar_tail_safe (series : List ℚ) (c : ℚ) (hne : series ≠ [])
    (h0 : 0 < c) (h1 : c < 1) :
    ∃ cut, var_hist series c = Except.ok cut ∧
      (∃ x ∈ series, x ≤ cut ∧ ∀ y ∈ series, x ≤ y) ∧
      series.filter (fun x => decide (x ≤ cut)) ≠ [] ∧
      ∃ m, cvar series c = Except.ok (some m) := by
  obtain ⟨hq0, hq1⟩ := q_range h0 h1
  have hv := var_hist_eq_ok hne hq0 hq1
  have htail := tail_ne_nil hne hq0 hq1
  refine ⟨percentile series ((1 - c) * 100), hv,
    exists_min_le_percentile series _ hne hq0 hq1, htail,
    (series.filter
        (fun x => decide (x ≤ percentile series ((1 - c) * 100)))).sum /
      ((series.filter
        (fun x => decide (x ≤ percentile series ((1 - c) * 100)))).length : ℚ),
    ?_⟩
  simp only [cvar, hv, pandasMean]
  rw [if_neg (by simpa [List.isEmpty_iff] using htail)]

/-- Witness for C10 at series `[1, 2, 3, 4]` and confidence level `0.95`. -/
theorem cvar_tail_safe_witness :
    ∃ cut, var_hist [1, 2, 3, 4] (19/20) = Except.ok cut ∧
      (∃ x ∈ ([1, 2, 3, 4] : List ℚ), x ≤ cut ∧
        ∀ y ∈ ([1, 2, 3, 4] : List ℚ), x ≤ y) ∧
      ([1, 2, 3, 4] : List ℚ).filter (fun x => decide (x ≤ cut)) ≠ [] ∧
      ∃ m, cvar [1, 2, 3, 4] (19/20) = Except.ok (some m) :=
  cvar_tail_safe [1, 2, 3, 4] (19/20) (by simp) (by norm_num) (by norm_num)
